import Mathlib

/-!
Verification of the crawl/extract/dedupe pipeline of `app.py`
(trend-search-app).  Python functions are shallowly embedded as Lean
definitions over `List Char` / `String`; Python values that may be
`None` or non-strings are modelled by `PyObj`.  External libraries
(`json`, `urllib`) are modelled by executable Lean functions covering
the fragment the program exercises (ASCII digits for the date regexes,
integer JSON numbers, scheme://netloc/path URLs).
-/

namespace TrendApp

/-- Model of a dynamically-typed Python value as it reaches the string
utilities: a `str`, `None`, or some other non-string object. -/
inductive PyObj where
  | pstr (s : String)
  | pnone
  | pint (n : Int)
deriving DecidableEq

/-- Python `str.strip()` whitespace class, restricted to the whitespace
characters that occur in this pipeline (ASCII whitespace and the
full-width space U+3000). -/
def pyIsWs (c : Char) : Bool :=
  c = ' ' || c = '\t' || c = '\n' || c = '\r' || c = '\x0b' || c = '\x0c' || c = '　'

/-- Python `str.strip()`: drop leading and trailing whitespace. -/
def pyStrip (l : List Char) : List Char :=
  ((l.dropWhile pyIsWs).reverse.dropWhile pyIsWs).reverse

/-- Python `s.replace(c, "")` for a single-character pattern: removes
every occurrence of that character. -/
def removeChar (c : Char) (l : List Char) : List Char :=
  l.filter (fun x => x ≠ c)

/-- `normalize_string` from app.py, on the character list of a `str`
argument: delete ASCII and full-width spaces, delete the four
parenthesis variants, lowercase, strip. -/
def normalize_string_chars (l : List Char) : List Char :=
  let t := removeChar '　' (removeChar ' ' l)
  let t2 := removeChar ')' (removeChar '(' (removeChar '）' (removeChar '（' t)))
  pyStrip (t2.map Char.toLower)

/-- `normalize_string` from app.py: non-`str` input maps to the empty
string. -/
def normalize_string (x : PyObj) : String :=
  match x with
  | .pstr s => String.mk (normalize_string_chars s.data)
  | _ => ""

/-- String-level version used on fields that are known to be `str`. -/
def normalize_string_str (s : String) : String :=
  normalize_string (.pstr s)

-- ------------------------------------------------------------------
-- normalize_date: the three date regexes, modelled over ASCII digits
-- ------------------------------------------------------------------

def isAsciiDigit (c : Char) : Bool := 48 ≤ c.toNat && c.toNat ≤ 57

/-- Python `str.zfill(2)`: left-pad with zeros to width 2. -/
def zfill2 (l : List Char) : List Char :=
  if l.length ≥ 2 then l else List.replicate (2 - l.length) '0' ++ l

/-- Match the month group `\d\x7b1,2\x7d` followed by a separator out of
`sep2s`, greedily with backtracking, returning the digits and the
remainder after the separator. -/
def monthMatch (sep2s : List Char) : List Char → Option (List Char × List Char)
  | d1 :: d2 :: s :: rest =>
    if isAsciiDigit d1 && isAsciiDigit d2 && sep2s.contains s then
      some ([d1, d2], rest)
    else if isAsciiDigit d1 && sep2s.contains d2 then
      some ([d1], s :: rest)
    else none
  | [d1, s] =>
    if isAsciiDigit d1 && sep2s.contains s then some ([d1], []) else none
  | _ => none

/-- Match the day group `\d\x7b1,2\x7d`, optionally followed by a
required trailing character (the `日` of the Japanese pattern). -/
def dayMatch (trail : Option Char) : List Char → Option (List Char × List Char)
  | l =>
    match trail with
    | none =>
      match l with
      | d1 :: d2 :: rest =>
        if isAsciiDigit d1 && isAsciiDigit d2 then some ([d1, d2], rest)
        else if isAsciiDigit d1 then some ([d1], d2 :: rest)
        else none
      | [d1] => if isAsciiDigit d1 then some ([d1], []) else none
      | [] => none
    | some t =>
      match l with
      | d1 :: d2 :: u :: rest =>
        if isAsciiDigit d1 && isAsciiDigit d2 && u = t then some ([d1, d2], rest)
        else if isAsciiDigit d1 && d2 = t then some ([d1], u :: rest)
        else none
      | [d1, d2] =>
        if isAsciiDigit d1 && d2 = t then some ([d1], []) else none
      | _ => none

/-- Match a full date pattern `\d\x7b4\x7d sep1 \d\x7b1,2\x7d sep2 \d\x7b1,2\x7d trail?`
at the head of the list. -/
def matchDateAt (sep1s sep2s : List Char) (trail : Option Char) (l : List Char) :
    Option (List Char × List Char × List Char × List Char) :=
  match l with
  | y1 :: y2 :: y3 :: y4 :: s1 :: rest =>
    if isAsciiDigit y1 && isAsciiDigit y2 && isAsciiDigit y3 && isAsciiDigit y4 &&
        sep1s.contains s1 then
      match monthMatch sep2s rest with
      | some (mo, rest2) =>
        match dayMatch trail rest2 with
        | some (d, rest3) => some ([y1, y2, y3, y4], mo, d, rest3)
        | none => none
      | none => none
    else none
  | _ => none

/-- `re.search` for the ISO-ish pattern (4 digits, a hyphen or slash,
1-2 digits, a hyphen or slash, 1-2 digits): leftmost match. -/
def searchSepDate : List Char → Option (List Char × List Char × List Char)
  | [] => none
  | c :: t =>
    match matchDateAt ['-', '/'] ['-', '/'] none (c :: t) with
    | some (y, mo, d, _) => some (y, mo, d)
    | none => searchSepDate t

/-- Fuel-driven global substitution (`re.sub`) of a date pattern:
left-to-right, non-overlapping.  Each step consumes at least one
character, so fuel `l.length` suffices. -/
def gsubAux (m : List Char → Option (List Char × List Char × List Char × List Char))
    (fmt : List Char → List Char → List Char → List Char) :
    Nat → List Char → List Char
  | 0, l => l
  | _ + 1, [] => []
  | fuel + 1, c :: t =>
    match m (c :: t) with
    | some (y, mo, d, rest) => fmt y mo d ++ gsubAux m fmt fuel rest
    | none => c :: gsubAux m fmt fuel t

def gsub (m : List Char → Option (List Char × List Char × List Char × List Char))
    (fmt : List Char → List Char → List Char → List Char) (l : List Char) : List Char :=
  gsubAux m fmt l.length l

def fmtYmd (y mo d : List Char) : List Char :=
  y ++ '年' :: (zfill2 mo ++ '月' :: (zfill2 d ++ ['日']))

def fmtSlash (y mo d : List Char) : List Char :=
  y ++ '/' :: (zfill2 mo ++ '/' :: zfill2 d)

/-- `normalize_date` from app.py: on a string, strip; if the text
contains a `YYYY-M-D` or `YYYY/M/D` match, return only that first match
zero-padded (slash form when the text contains a slash, else the
Japanese form); otherwise rewrite all `YYYY年M月D日` (and `YYYY/M/D`,
vacuously here) occurrences in place, zero-padded, and strip.  Falsy or
non-string input yields the empty string. -/
def normalize_date (x : PyObj) : String :=
  match x with
  | .pstr s =>
    if s = "" then ""
    else
      let t := pyStrip s.data
      match searchSepDate t with
      | some (y, mo, d) =>
        if '/' ∈ t then String.mk (fmtSlash y mo d)
        else String.mk (fmtYmd y mo d)
      | none =>
        String.mk (pyStrip (gsub (matchDateAt ['/'] ['/'] none) fmtSlash
          (gsub (matchDateAt ['年'] ['月'] (some '日')) fmtYmd t)))
  | _ => ""

-- ------------------------------------------------------------------
-- JSON: a model of Python's json module restricted to the fragment
-- this program exchanges with the LLM (integer numbers, strings with
-- basic escapes; no floats).
-- ------------------------------------------------------------------

/-- Brace characters, written via code points. -/
def lbrace : Char := Char.ofNat 123

def rbrace : Char := Char.ofNat 125

/-- A JSON value. -/
inductive Json where
  | null
  | bool (b : Bool)
  | num (n : Int)
  | str (s : String)
  | arr (xs : List Json)
  | obj (kvs : List (String × Json))

def skipJsonWs (l : List Char) : List Char :=
  l.dropWhile (fun c => c = ' ' || c = '\t' || c = '\n' || c = '\r')

def escChar (c : Char) : Option Char :=
  if c = '"' then some '"'
  else if c = '\\' then some '\\'
  else if c = '/' then some '/'
  else if c = 'n' then some '\n'
  else if c = 't' then some '\t'
  else if c = 'r' then some '\r'
  else none

/-- Body of a JSON string after the opening quote, with basic escapes. -/
def parseStrBody : Nat → List Char → Option (List Char × List Char)
  | 0, _ => none
  | _ + 1, [] => none
  | fuel + 1, c :: t =>
    if c = '"' then some ([], t)
    else if c = '\\' then
      match t with
      | [] => none
      | e :: t2 =>
        match escChar e with
        | some ce =>
          match parseStrBody fuel t2 with
          | some (s, r) => some (ce :: s, r)
          | none => none
        | none => none
    else
      match parseStrBody fuel t with
      | some (s, r) => some (c :: s, r)
      | none => none

def digitsToNat (l : List Char) : Nat :=
  l.foldl (fun a c => 10 * a + (c.toNat - 48)) 0

/-- A JSON integer: optional minus sign, one or more digits. -/
def parseIntNum (l : List Char) : Option (Int × List Char) :=
  match l with
  | '-' :: t =>
    let ds := t.takeWhile isAsciiDigit
    if ds.isEmpty then none
    else some (-(digitsToNat ds : Int), t.dropWhile isAsciiDigit)
  | _ =>
    let ds := l.takeWhile isAsciiDigit
    if ds.isEmpty then none
    else some ((digitsToNat ds : Int), l.dropWhile isAsciiDigit)

mutual

/-- Recursive-descent JSON value, fuel-bounded (each unit of fuel
accompanies at least one consumed character, so fuel `length + 1`
suffices). -/
def parseJsonVal : Nat → List Char → Option (Json × List Char)
  | 0, _ => none
  | fuel + 1, l =>
    let l1 := skipJsonWs l
    if "true".data.isPrefixOf l1 then some (.bool true, l1.drop 4)
    else if "false".data.isPrefixOf l1 then some (.bool false, l1.drop 5)
    else if "null".data.isPrefixOf l1 then some (.null, l1.drop 4)
    else
      match l1 with
      | [] => none
      | c :: t =>
        if c = '"' then
          match parseStrBody fuel t with
          | some (s, r) => some (.str (String.mk s), r)
          | none => none
        else if c = '[' then
          match skipJsonWs t with
          | ']' :: t2 => some (.arr [], t2)
          | _ =>
            match parseJsonVal fuel t with
            | some (v, r) =>
              match parseArrTail fuel r with
              | some (vs, r2) => some (.arr (v :: vs), r2)
              | none => none
            | none => none
        else if c = lbrace then
          match skipJsonWs t with
          | c2 :: t2 =>
            if c2 = rbrace then some (.obj [], t2)
            else
              match parseObjMember fuel t with
              | some (kv, r) =>
                match parseObjTail fuel r with
                | some (kvs, r2) => some (.obj (kv :: kvs), r2)
                | none => none
              | none => none
          | [] => none
        else
          match parseIntNum l1 with
          | some (n, r) => some (.num n, r)
          | none => none

/-- Continuation of an array after one parsed element. -/
def parseArrTail : Nat → List Char → Option (List Json × List Char)
  | 0, _ => none
  | fuel + 1, l =>
    match skipJsonWs l with
    | ']' :: t => some ([], t)
    | ',' :: t =>
      match parseJsonVal fuel t with
      | some (v, r) =>
        match parseArrTail fuel r with
        | some (vs, r2) => some (v :: vs, r2)
        | none => none
      | none => none
    | _ => none

/-- One `"key": value` member of an object. -/
def parseObjMember : Nat → List Char → Option ((String × Json) × List Char)
  | 0, _ => none
  | fuel + 1, l =>
    match skipJsonWs l with
    | '"' :: t =>
      match parseStrBody fuel t with
      | some (k, r) =>
        match skipJsonWs r with
        | ':' :: r2 =>
          match parseJsonVal fuel r2 with
          | some (v, r3) => some ((String.mk k, v), r3)
          | none => none
        | _ => none
      | none => none
    | _ => none

/-- Continuation of an object after one parsed member. -/
def parseObjTail : Nat → List Char → Option (List (String × Json) × List Char)
  | 0, _ => none
  | fuel + 1, l =>
    match skipJsonWs l with
    | c :: t =>
      if c = rbrace then some ([], t)
      else if c = ',' then
        match parseObjMember fuel t with
        | some (kv, r) =>
          match parseObjTail fuel r with
          | some (kvs, r2) => some (kv :: kvs, r2)
          | none => none
        | none => none
      else none
    | [] => none

end

/-- Model of `json.loads`: the whole string must be one JSON value plus
trailing whitespace. -/
def json_loads (s : String) : Option Json :=
  match parseJsonVal (s.data.length + 1) s.data with
  | some (v, rest) => if skipJsonWs rest = [] then some v else none
  | none => none

mutual

/-- Model of `json.dumps` with Python's default separators. -/
def dumpsChars : Json → List Char
  | .null => "null".data
  | .bool true => "true".data
  | .bool false => "false".data
  | .num n => (toString n).data
  | .str s => '"' :: (s.data.flatMap (fun c =>
      if c = '"' then ['\\', '"'] else if c = '\\' then ['\\', '\\'] else [c]) ++ ['"'])
  | .arr xs => '[' :: (dumpsArr xs ++ [']'])
  | .obj kvs => lbrace :: (dumpsObj kvs ++ [rbrace])

def dumpsArr : List Json → List Char
  | [] => []
  | [x] => dumpsChars x
  | x :: y :: t => dumpsChars x ++ ',' :: ' ' :: dumpsArr (y :: t)

def dumpsObj : List (String × Json) → List Char
  | [] => []
  | [(k, v)] => '"' :: (k.data ++ '"' :: ':' :: ' ' :: dumpsChars v)
  | (k, v) :: m :: t =>
    '"' :: (k.data ++ '"' :: ':' :: ' ' :: dumpsChars v) ++ ',' :: ' ' :: dumpsObj (m :: t)

end

def json_dumps (j : Json) : String := String.mk (dumpsChars j)

/-- Python `s.find(c)`: index of first occurrence. -/
def strFind (c : Char) (l : List Char) : Option Nat :=
  l.findIdx? (fun x => x = c)

/-- Python `s.rfind(c)`: index of last occurrence. -/
def strRfind (c : Char) (l : List Char) : Option Nat :=
  match l.reverse.findIdx? (fun x => x = c) with
  | some i => some (l.length - 1 - i)
  | none => none

/-- Python slice `s[a:b]` for `0 ≤ a ≤ b`. -/
def pySlice (l : List Char) (a b : Nat) : List Char := (l.take b).drop a

/-- Python `s.replace(pat, "")` for a multi-character pattern:
left-to-right, non-overlapping removal. -/
def removeSubAux (pat : List Char) : Nat → List Char → List Char
  | 0, l => l
  | _ + 1, [] => []
  | fuel + 1, c :: t =>
    if pat.isPrefixOf (c :: t) then removeSubAux pat fuel ((c :: t).drop pat.length)
    else c :: removeSubAux pat fuel t

def removeSub (pat l : List Char) : List Char := removeSubAux pat l.length l

/-- The brace-substring fallback of `safe_json_parse` (app.py lines
113-121): parse the substring from the first brace to the last brace as
an object, wrapped in a one-element list; anything else yields `[]`. -/
def safe_json_parse_braces (sl : List Char) : List Json :=
  match strFind lbrace sl, strRfind rbrace sl with
  | some l, some r =>
    if r > l then
      match json_loads (String.mk (pySlice sl l (r + 1))) with
      | some (.obj kvs) => [.obj kvs]
      | some _ => []
      | none => []
    else []
  | _, _ => []

/-- The bracket-substring stage of `safe_json_parse`, applied to the
fence-stripped, whitespace-stripped character list. -/
def safe_json_parse_core (sl : List Char) : List Json :=
  match strFind '[' sl, strRfind ']' sl with
  | some l, some r =>
    if r > l then
      match json_loads (String.mk (pySlice sl l (r + 1))) with
      | some (.arr xs) => xs
      | some _ => []
      | none => safe_json_parse_braces sl
    else safe_json_parse_braces sl
  | _, _ => safe_json_parse_braces sl

/-- `safe_json_parse` from app.py: falsy or non-string input yields
`[]`; otherwise strip markdown fences, then try the substring from the
first `[` to the last `]` as a JSON array (a successful non-list parse
yields `[]`), and on parse failure or missing brackets fall back to the
brace substring as a wrapped object.  There is no direct parse of the
whole trimmed string. -/
def safe_json_parse (x : PyObj) : List Json :=
  match x with
  | .pstr s =>
    if s = "" then []
    else safe_json_parse_core (pyStrip (removeSub "```".data (removeSub "```json".data s.data)))
  | _ => []

/-- Modelled from the spec: the parse stages as the spec states them
(4.8 / C5) — after stripping fences, (a) a direct parse of the whole
trimmed string (an array is returned as-is, a lone object is wrapped,
per the function's `list[dict]` contract); only if that parse fails,
(b) the bracket substring as an array, then (c) the brace substring as
a wrapped object. -/
def spec_safe_json_parse (s : String) : List Json :=
  match json_loads (String.mk (pyStrip
      (removeSub "```".data (removeSub "```json".data s.data)))) with
  | some (.arr xs) => xs
  | some (.obj kvs) => [.obj kvs]
  | some _ => []
  | none =>
    safe_json_parse_core (pyStrip (removeSub "```".data (removeSub "```json".data s.data)))

-- ------------------------------------------------------------------
-- URLs and next-page discovery
-- ------------------------------------------------------------------

/-- Substring containment, Python's `pat in s`. -/
def containsSub (pat : List Char) : List Char → Bool
  | [] => pat.isEmpty
  | c :: t => pat.isPrefixOf (c :: t) || containsSub pat t

/-- Index of the first occurrence of a (non-empty) pattern. -/
def findSubIdx (pat : List Char) : List Char → Option Nat
  | [] => if pat.isEmpty then some 0 else none
  | c :: t =>
    if pat.isPrefixOf (c :: t) then some 0
    else (findSubIdx pat t).map (· + 1)

/-- Model of `urllib.parse.urlparse(url).netloc` for absolute
`scheme://netloc/path` URLs: the segment after `://` up to the first
`/`, `?` or `#`; empty for scheme-less input (scheme-relative `//host`
forms do not occur in this pipeline's URLs). -/
def urlNetloc (url : String) : String :=
  match findSubIdx "://".data url.data with
  | some i =>
    String.mk ((url.data.drop (i + 3)).takeWhile
      (fun c => c ≠ '/' && c ≠ '?' && c ≠ '#'))
  | none => ""

/-- `same_domain` from app.py: exact netloc equality. -/
def same_domain (url_a url_b : String) : Bool := urlNetloc url_a = urlNetloc url_b

/-- Model of `urllib.parse.urljoin` restricted to the href shapes the
crawler meets: absolute URLs pass through, root-relative paths are
attached to the base's `scheme://netloc`, other hrefs replace the
base's last path segment. -/
def urljoin (base href : String) : String :=
  if (findSubIdx "://".data href.data).isSome then href
  else if href.data.take 1 = ['/'] then
    match findSubIdx "://".data base.data with
    | some i => String.mk (base.data.take (i + 3) ++ (urlNetloc base).data ++ href.data)
    | none => href
  else
    match strRfind '/' base.data with
    | some i => String.mk (base.data.take (i + 1) ++ href.data)
    | none => href

/-- `is_valid_href` from app.py: reject empty hrefs, pure fragments and
`javascript:` pseudo-URLs. -/
def is_valid_href (href : String) : Bool :=
  if href = "" then false
  else
    let h := pyStrip href.data
    if h.take 1 = ['#'] then false
    else if "javascript:".data.isPrefixOf (h.map Char.toLower) then false
    else true

/-- Crawl policy for one domain (`SiteRule` dataclass).  The fields not
exercised by `find_next_page_url` (`article_path_allow`,
`content_selectors`) are omitted. -/
structure SiteRule where
  name : String
  match_netloc : String
  listing_next_hint_tokens : List String
  deny_path_prefixes : List String
deriving DecidableEq

/-- The generic token list used when no rule matches (the literal tuple
in `find_next_page_url`). -/
def default_next_hint_tokens : List String := ["次へ", "次の", "もっと見る", "Next", "More"]

def next_hint_tokens (rule : Option SiteRule) : List String :=
  match rule with
  | some r => r.listing_next_hint_tokens
  | none => default_next_hint_tokens

/-- An anchor element as `find_next_page_url` inspects it: its `rel`
attribute (absent or rendered to a string), its `href` attribute, its
stripped visible text, and its joined class string. -/
structure Anchor where
  rel : Option String
  href : Option String
  text : String
  cls : String
deriving DecidableEq

/-- A parsed listing page: the href of the first `<link rel="next">`
element when one exists, and the anchors in document order. -/
structure ListingDoc where
  link_next : Option (Option String)
  anchors : List Anchor
deriving DecidableEq

/-- The `rel=lambda v: v and "next" in str(v).lower()` predicate. -/
def relHasNext (rel : Option String) : Bool :=
  match rel with
  | some v => v ≠ "" && containsSub "next".data (v.data.map Char.toLower)
  | none => false

/-- Stage 1 of `find_next_page_url`: a `<link rel="next">` element with
a truthy, valid href that resolves on-site. -/
def fnpu_link_next (doc : ListingDoc) (current_url : String) : Option String :=
  match doc.link_next with
  | some (some href) =>
    if href ≠ "" && is_valid_href href then
      if same_domain (urljoin current_url href) current_url then
        some (urljoin current_url href)
      else none
    else none
  | _ => none

/-- Stage 2: the first anchor carrying an href whose `rel` contains
"next". -/
def fnpu_rel_anchor (doc : ListingDoc) (current_url : String) : Option String :=
  match doc.anchors.find? (fun a => a.href.isSome && relHasNext a.rel) with
  | some a =>
    match a.href with
    | some href =>
      if is_valid_href href then
        if same_domain (urljoin current_url href) current_url then
          some (urljoin current_url href)
        else none
      else none
    | none => none
  | none => none

/-- Stage 3: the first anchor whose visible TEXT contains one of the
next-page hint tokens (the class attribute is never consulted). -/
def fnpu_token_anchor (doc : ListingDoc) (current_url : String)
    (tokens : List String) : Option String :=
  doc.anchors.findSome? (fun a =>
    match a.href with
    | none => none
    | some href =>
      if tokens.any (fun tok => containsSub tok.data a.text.data) then
        if href ≠ "" && is_valid_href href then
          if same_domain (urljoin current_url href) current_url then
            some (urljoin current_url href)
          else none
        else none
      else none)

/-- `find_next_page_url` from app.py: the three stages in priority
order, falling through on failure (including when a candidate is
discarded for resolving off-site). -/
def find_next_page_url (doc : ListingDoc) (current_url : String)
    (rule : Option SiteRule) : Option String :=
  match fnpu_link_next doc current_url with
  | some u => some u
  | none =>
    match fnpu_rel_anchor doc current_url with
    | some u => some u
    | none => fnpu_token_anchor doc current_url (next_hint_tokens rule)

-- ------------------------------------------------------------------
-- Event records, JSON-LD merge, deduplication
-- ------------------------------------------------------------------

/-- An extracted event record as assembled by `ai_extract_events_from_text`
and enriched in the main loop.  The provenance fields `source_label` and
`source_url`, stamped on acceptance, are presentation-only and carry no
pipeline logic, so they are not modelled. -/
structure Item where
  name : String
  place : String
  address : String
  latitude : String
  longitude : String
  date_info : String
  description : String
  release_date : String
deriving DecidableEq

/-- Result of `extract_location_from_jsonld`: three string fields,
empty when not found. -/
structure JsonLdLoc where
  address : String
  latitude : String
  longitude : String
deriving DecidableEq

/-- Per-item merge step of the main extraction loop (app.py lines
762-770): stamp the article's release date, then let each JSON-LD
location field fill the corresponding LLM-extracted field only when the
LLM field is empty (`if loc.get(k) and not item.get(k)`). -/
def merge_item_with_jsonld (release_date : String) (loc : JsonLdLoc) (item : Item) : Item :=
  { item with
    release_date := release_date
    address := if loc.address ≠ "" ∧ item.address = "" then loc.address else item.address
    latitude := if loc.latitude ≠ "" ∧ item.latitude = "" then loc.latitude else item.latitude
    longitude := if loc.longitude ≠ "" ∧ item.longitude = "" then loc.longitude
      else item.longitude }

/-- The deduplication key `(normalize_string(name), normalize_string(place))`. -/
def fingerprint (item : Item) : String × String :=
  (normalize_string_str item.name, normalize_string_str item.place)

/-- Mutable state of the main loop's deduplication pass: the in-run
fingerprint set, the output list, and the two skip counters. -/
structure DedupState where
  run_fingerprints : List (String × String)
  accepted : List Item
  skipped_duplicate_csv : Nat
  skipped_duplicate_run : Nat
deriving DecidableEq

def initDedupState : DedupState := ⟨[], [], 0, 0⟩

/-- One iteration of the per-item dedup logic of the main loop (app.py
lines 772-792): reject on empty normalized name, on a fingerprint known
from the uploaded CSV, or on a fingerprint already seen this run;
otherwise record the fingerprint and accept. -/
def dedupStep (existing_fingerprints : List (String × String))
    (st : DedupState) (item : Item) : DedupState :=
  if (fingerprint item).1 = "" then st
  else if fingerprint item ∈ existing_fingerprints then
    { st with skipped_duplicate_csv := st.skipped_duplicate_csv + 1 }
  else if fingerprint item ∈ st.run_fingerprints then
    { st with skipped_duplicate_run := st.skipped_duplicate_run + 1 }
  else
    { st with run_fingerprints := fingerprint item :: st.run_fingerprints,
              accepted := st.accepted ++ [item] }

/-- The dedup pass over a stream of candidate records. -/
def process_items (existing_fingerprints : List (String × String))
    (items : List Item) : DedupState :=
  items.foldl (dedupStep existing_fingerprints) initDedupState

-- ------------------------------------------------------------------
-- Text chunker
-- ------------------------------------------------------------------

/-- Loop body of `split_text_into_chunks` from app.py.  `fuel` bounds the
number of iterations; since each iteration advances `start` by at least
one position when `chunk_size ≥ 1`, fuel `text.length` is never
exhausted.  (For `chunk_size = 0` the Python loop does not terminate;
no caller uses that value.) -/
def chunkLoop (text : List Char) (chunk_size overlap : Nat) : Nat → Nat → List (List Char)
  | _, 0 => []
  | start, fuel + 1 =>
    if start < text.length then
      let e := min (start + chunk_size) text.length
      ((text.drop start).take (e - start)) ::
        chunkLoop text chunk_size overlap (max (e - overlap) e) fuel
    else []

/-- `split_text_into_chunks` from app.py (a generator; modelled as the
list of yielded chunks). -/
def split_text_into_chunks (text : List Char) (chunk_size overlap : Nat) :
    List (List Char) :=
  chunkLoop text chunk_size overlap 0 text.length

-- ------------------------------------------------------------------
-- LLM extraction call with retry (ai_extract_events_from_text)
-- ------------------------------------------------------------------

/-- Outcome of one `client.models.generate_content` attempt for a given
chunk: a raw response text, an exception whose message contains
"429"/"RESOURCE_EXHAUSTED", or any other exception.  The LLM is the
spec's external collaborator, so it is modelled as an oracle. -/
inductive LLMOutcome where
  | ok (raw : String)
  | rateLimitErr
  | otherErr

/-- Python truthiness of a JSON-decoded value. -/
def jsonTruthy : Json → Bool
  | .null => false
  | .bool b => b
  | .num n => n ≠ 0
  | .str s => s ≠ ""
  | .arr xs => !xs.isEmpty
  | .obj kvs => !kvs.isEmpty

/-- `dict.get`: last binding wins, as in a Python dict built by
`json.loads`. -/
def jsonLookup (kvs : List (String × Json)) (k : String) : Option Json :=
  (kvs.reverse.find? (fun kv => kv.1 = k)).map (fun kv => kv.2)

/-- Python `str()` of a JSON-decoded value (container reprs are
approximated by their JSON text; only scalars occur in record fields). -/
def pyStr : Json → String
  | .str s => s
  | .num n => toString n
  | .bool true => "True"
  | .bool false => "False"
  | .null => "None"
  | .arr xs => json_dumps (.arr xs)
  | .obj kvs => json_dumps (.obj kvs)

/-- `str(item.get(k) or "")`: a missing or falsy value becomes the
empty string. -/
def pyGetStr (kvs : List (String × Json)) (k : String) : String :=
  match jsonLookup kvs k with
  | some v => if jsonTruthy v then pyStr v else ""
  | none => ""

def pyStripStr (s : String) : String := String.mk (pyStrip s.data)

/-- Coercion of one parsed LLM item into an `Item` (app.py lines
431-446): non-dicts and falsy values are skipped, a name empty after
stripping discards the item, `date_info` is normalized. -/
def itemFromJson : Json → Option Item
  | .obj kvs =>
    if kvs.isEmpty then none
    else
      if pyStripStr (pyGetStr kvs "name") = "" then none
      else some
        { name := pyStripStr (pyGetStr kvs "name")
          place := pyStripStr (pyGetStr kvs "place")
          address := pyStripStr (pyGetStr kvs "address")
          latitude := pyStripStr (pyGetStr kvs "latitude")
          longitude := pyStripStr (pyGetStr kvs "longitude")
          date_info := normalize_date (.pstr (pyStripStr (pyGetStr kvs "date_info")))
          description := pyStripStr (pyGetStr kvs "description")
          release_date := "" }
  | _ => none

/-- Records recovered from one successful LLM response. -/
def items_from_response (raw : String) : List Item :=
  (safe_json_parse (.pstr raw)).filterMap itemFromJson

/-- Result of the per-chunk retry loop: the records extracted, how many
times the run-level error counter was incremented, and the sleeps (in
seconds) performed between attempts. -/
structure RetryResult where
  items : List Item
  err_increments : Nat
  waits : List Nat
deriving DecidableEq

/-- The retry loop body (`for attempt in range(max_retries + 1)`),
running from attempt index `attempt` with `fuel` loop iterations left:
success appends the parsed items and leaves the loop; a rate-limit
error sleeps `10 * (attempt + 1)` seconds and retries while attempts
remain, else counts one error; any other error counts one error and
leaves the loop. -/
def retry_llm_call_go (oracle : Nat → LLMOutcome) (max_retries : Nat) :
    Nat → Nat → RetryResult
  | _, 0 => ⟨[], 0, []⟩
  | attempt, fuel + 1 =>
    match oracle attempt with
    | .ok raw => ⟨items_from_response raw, 0, []⟩
    | .otherErr => ⟨[], 1, []⟩
    | .rateLimitErr =>
      if attempt < max_retries then
        let r := retry_llm_call_go oracle max_retries (attempt + 1) fuel
        ⟨r.items, r.err_increments, 10 * (attempt + 1) :: r.waits⟩
      else ⟨[], 1, []⟩

/-- One chunk's LLM call with the app's `max_retries = 3`. -/
def retry_llm_call (oracle : Nat → LLMOutcome) (max_retries : Nat) : RetryResult :=
  retry_llm_call_go oracle max_retries 0 (max_retries + 1)

/-- Run-level result of `ai_extract_events_from_text`. -/
structure ExtractResult where
  all_items : List Item
  gemini_error_count : Nat
deriving DecidableEq

/-- Per-chunk step of `ai_extract_events_from_text`: chunks shorter
than `min_chunk_len` are skipped; otherwise the chunk's retry loop runs
and its items and error increments are accumulated. -/
def extract_step (oracle : Nat → Nat → LLMOutcome) (min_chunk_len : Nat)
    (acc : ExtractResult) (p : Nat × List Char) : ExtractResult :=
  if p.2.isEmpty || p.2.length < min_chunk_len then acc
  else
    ⟨acc.all_items ++ (retry_llm_call (oracle p.1) 3).items,
     acc.gemini_error_count + (retry_llm_call (oracle p.1) 3).err_increments⟩

/-- `ai_extract_events_from_text` from app.py: chunk the text
(`chunk_size=8000, overlap=400`), and for each usable chunk run the LLM
call under the retry loop, concatenating results across chunks; the
oracle's first index is the chunk number. -/
def ai_extract_events_from_text (oracle : Nat → Nat → LLMOutcome)
    (text : List Char) (min_chunk_len : Nat) : ExtractResult :=
  ((split_text_into_chunks text 8000 400).enum).foldl
    (extract_step oracle min_chunk_len) ⟨[], 0⟩


-- ------------------------------------------------------------------
-- Helper lemmas for normalize_string
-- ------------------------------------------------------------------

theorem mem_removeChar {c x : Char} {l : List Char} (h : x ∈ removeChar c l) :
    x ∈ l ∧ x ≠ c := by
  unfold removeChar at h
  rw [List.mem_filter] at h
  exact ⟨h.1, by simpa using h.2⟩

theorem removeChar_eq_self {c : Char} {l : List Char} (h : c ∉ l) :
    removeChar c l = l := by
  unfold removeChar
  apply List.filter_eq_self.mpr
  intro a ha
  simp only [ne_eq, decide_eq_true_eq]
  intro hc
  exact h (hc ▸ ha)

theorem head_dropWhile_false {p : Char → Bool} :
    ∀ l : List Char, ∀ c ∈ (l.dropWhile p).head?, p c = false := by
  intro l
  induction l with
  | nil => intro c hc; simp at hc
  | cons a t ih =>
      intro c hc
      by_cases hp : p a
      · rw [List.dropWhile_cons_of_pos hp] at hc
        exact ih c hc
      · rw [List.dropWhile_cons_of_neg hp] at hc
        simp only [List.head?_cons, Option.mem_def, Option.some.injEq] at hc
        subst hc
        exact Bool.eq_false_iff.mpr hp

theorem dropWhile_eq_self_of_head {p : Char → Bool} {l : List Char}
    (h : ∀ c ∈ l.head?, p c = false) : l.dropWhile p = l := by
  cases l with
  | nil => rfl
  | cons a t =>
      have ha : p a = false := h a rfl
      simp [List.dropWhile, ha]

theorem mem_pyStrip {x : Char} {l : List Char} (h : x ∈ pyStrip l) : x ∈ l := by
  unfold pyStrip at h
  rw [List.mem_reverse] at h
  have h1 := (List.dropWhile_sublist (l := (l.dropWhile pyIsWs).reverse) pyIsWs).mem h
  rw [List.mem_reverse] at h1
  exact (List.dropWhile_sublist pyIsWs).mem h1

/-- The head of a stripped list is not whitespace. -/
theorem head_pyStrip_false {l : List Char} :
    ∀ c ∈ (pyStrip l).head?, pyIsWs c = false := by
  intro c hc
  unfold pyStrip at hc
  set A := l.dropWhile pyIsWs with hA
  set B := A.reverse.dropWhile pyIsWs with hB
  rw [List.head?_reverse] at hc
  rcases hBnil : B with _ | ⟨b, B'⟩
  · rw [hBnil] at hc; simp at hc
  · have hne : B ≠ [] := by rw [hBnil]; exact List.cons_ne_nil _ _
    have hsuff : B <:+ A.reverse := List.dropWhile_suffix pyIsWs
    obtain ⟨u, hu⟩ := hsuff
    have : B.getLast? = A.reverse.getLast? := by
      rw [← hu, List.getLast?_append_of_ne_nil _ hne]
    rw [this, List.getLast?_reverse] at hc
    exact head_dropWhile_false l c hc

/-- Stripping is idempotent. -/
theorem pyStrip_idem (l : List Char) : pyStrip (pyStrip l) = pyStrip l := by
  have h1 : (pyStrip l).dropWhile pyIsWs = pyStrip l :=
    dropWhile_eq_self_of_head head_pyStrip_false
  show ((((pyStrip l).dropWhile pyIsWs).reverse).dropWhile pyIsWs).reverse = pyStrip l
  rw [h1]
  unfold pyStrip
  rw [List.reverse_reverse]
  have h2 : ((l.dropWhile pyIsWs).reverse.dropWhile pyIsWs).dropWhile pyIsWs
      = (l.dropWhile pyIsWs).reverse.dropWhile pyIsWs :=
    dropWhile_eq_self_of_head (head_dropWhile_false _)
  rw [h2]

theorem toNat_ofNat_valid {n : Nat} (h : n.isValidChar) : (Char.ofNat n).toNat = n := by
  rw [Char.ofNat, dif_pos h]
  rfl

theorem char_toNat_inj {a b : Char} (h : a.toNat = b.toNat) : a = b := by
  have ha : Char.ofNat a.toNat = a := Char.ofNat_toNat a
  have hb : Char.ofNat b.toNat = b := Char.ofNat_toNat b
  rw [← ha, ← hb, h]

theorem toLower_toNat (c : Char) :
    (Char.toLower c).toNat =
      if 65 ≤ c.toNat ∧ c.toNat ≤ 90 then c.toNat + 32 else c.toNat := by
  unfold Char.toLower
  by_cases h : 65 ≤ c.toNat ∧ c.toNat ≤ 90
  · rw [if_pos ⟨h.1, h.2⟩, if_pos h]
    exact toNat_ofNat_valid (Or.inl (by omega))
  · rw [if_neg (fun hc => h ⟨hc.1, hc.2⟩), if_neg h]

theorem toLower_eq_self {c : Char} (h : ¬(65 ≤ c.toNat ∧ c.toNat ≤ 90)) :
    Char.toLower c = c := by
  unfold Char.toLower
  rw [if_neg (fun hc => h ⟨hc.1, hc.2⟩)]

theorem toLower_idem (c : Char) : Char.toLower (Char.toLower c) = Char.toLower c := by
  by_cases h : 65 ≤ c.toNat ∧ c.toNat ≤ 90
  · apply toLower_eq_self
    rw [toLower_toNat c, if_pos h]
    omega
  · rw [toLower_eq_self h]
    exact toLower_eq_self h

/-- If `toLower y` is a character outside the lowercase ASCII range, it
already equals `y`. -/
theorem eq_of_toLower_eq {y s : Char} (hs : ¬(97 ≤ s.toNat ∧ s.toNat ≤ 122))
    (h : Char.toLower y = s) : y = s := by
  by_cases hr : 65 ≤ y.toNat ∧ y.toNat ≤ 90
  · exfalso
    apply hs
    have := toLower_toNat y
    rw [h, if_pos hr] at this
    omega
  · rwa [toLower_eq_self hr] at h

theorem map_eq_self_of_fixed {f : Char → Char} :
    ∀ {l : List Char}, (∀ x ∈ l, f x = x) → l.map f = l := by
  intro l
  induction l with
  | nil => intro _; rfl
  | cons a t ih =>
      intro h
      simp only [List.map_cons]
      rw [h a (List.mem_cons_self a t), ih (fun x hx => h x (List.mem_cons_of_mem a hx))]

/-- Every character surviving `normalize_string` is none of the deleted
characters and is already lowercase. -/
theorem mem_normalize_string_chars {x : Char} {l : List Char}
    (h : x ∈ normalize_string_chars l) :
    x ≠ ' ' ∧ x ≠ '　' ∧ x ≠ '（' ∧ x ≠ '）' ∧ x ≠ '(' ∧ x ≠ ')' ∧
      Char.toLower x = x := by
  unfold normalize_string_chars at h
  have hmap := mem_pyStrip h
  rw [List.mem_map] at hmap
  obtain ⟨y, hy, hxy⟩ := hmap
  obtain ⟨hy1, hyrp⟩ := mem_removeChar hy
  obtain ⟨hy2, hylp⟩ := mem_removeChar hy1
  obtain ⟨hy3, hyfr⟩ := mem_removeChar hy2
  obtain ⟨hy4, hyfl⟩ := mem_removeChar hy3
  obtain ⟨hy5, hyfs⟩ := mem_removeChar hy4
  obtain ⟨_, hysp⟩ := mem_removeChar hy5
  refine ⟨?_, ?_, ?_, ?_, ?_, ?_, ?_⟩
  · intro hx; exact hysp (eq_of_toLower_eq (by decide) (hx ▸ hxy))
  · intro hx; exact hyfs (eq_of_toLower_eq (by decide) (hx ▸ hxy))
  · intro hx; exact hyfl (eq_of_toLower_eq (by decide) (hx ▸ hxy))
  · intro hx; exact hyfr (eq_of_toLower_eq (by decide) (hx ▸ hxy))
  · intro hx; exact hylp (eq_of_toLower_eq (by decide) (hx ▸ hxy))
  · intro hx; exact hyrp (eq_of_toLower_eq (by decide) (hx ▸ hxy))
  · rw [← hxy]; exact toLower_idem y

theorem not_mem_normalize_string_chars (c : Char) (l : List Char)
    (hc : c = ' ' ∨ c = '　' ∨ c = '（' ∨ c = '）' ∨ c = '(' ∨ c = ')') :
    c ∉ normalize_string_chars l := by
  intro h
  have := mem_normalize_string_chars h
  rcases hc with h1 | h1 | h1 | h1 | h1 | h1 <;> subst h1
  · exact this.1 rfl
  · exact this.2.1 rfl
  · exact this.2.2.1 rfl
  · exact this.2.2.2.1 rfl
  · exact this.2.2.2.2.1 rfl
  · exact this.2.2.2.2.2.1 rfl

theorem normalize_string_chars_idem (l : List Char) :
    normalize_string_chars (normalize_string_chars l) = normalize_string_chars l := by
  show pyStrip ((removeChar ')' (removeChar '(' (removeChar '）' (removeChar '（'
      (removeChar '　' (removeChar ' ' (normalize_string_chars l))))))).map Char.toLower)
     = normalize_string_chars l
  rw [removeChar_eq_self (not_mem_normalize_string_chars _ _ (by tauto)),
      removeChar_eq_self (not_mem_normalize_string_chars _ _ (by tauto)),
      removeChar_eq_self (not_mem_normalize_string_chars _ _ (by tauto)),
      removeChar_eq_self (not_mem_normalize_string_chars _ _ (by tauto)),
      removeChar_eq_self (not_mem_normalize_string_chars _ _ (by tauto)),
      removeChar_eq_self (not_mem_normalize_string_chars _ _ (by tauto)),
      map_eq_self_of_fixed (fun x hx => (mem_normalize_string_chars hx).2.2.2.2.2.2)]
  exact pyStrip_idem _

/-- C9: `normalize_string` maps non-string input to the empty string,
deletes ASCII and full-width spaces and the four parenthesis variants,
lowercases, and is idempotent; in particular the two concrete inputs
"渋谷 パルコ" and "渋谷パルコ" normalize identically. -/
theorem claim_C9_normalize_string :
    (∀ x : PyObj, normalize_string (.pstr (normalize_string x)) = normalize_string x) ∧
    normalize_string .pnone = "" ∧
    (∀ n : Int, normalize_string (.pint n) = "") ∧
    (∀ s : String, ∀ x ∈ (normalize_string (.pstr s)).data,
      x ≠ ' ' ∧ x ≠ '　' ∧ x ≠ '（' ∧ x ≠ '）' ∧ x ≠ '(' ∧ x ≠ ')' ∧
        Char.toLower x = x) ∧
    normalize_string (.pstr "渋谷 パルコ") = normalize_string (.pstr "渋谷パルコ") := by
  refine ⟨?_, rfl, fun _ => rfl, ?_, by decide⟩
  · intro x
    cases x with
    | pstr s =>
        show String.mk (normalize_string_chars (String.mk (normalize_string_chars s.data)).data)
            = String.mk (normalize_string_chars s.data)
        rw [show (String.mk (normalize_string_chars s.data)).data
              = normalize_string_chars s.data from rfl]
        rw [normalize_string_chars_idem]
    | pnone => rfl
    | pint n => rfl
  · intro s x hx
    exact mem_normalize_string_chars hx

/-- Witness for C9 at concrete inputs. -/
theorem claim_C9_normalize_string_witness :
    normalize_string (.pstr (normalize_string (.pstr "渋谷 (PARCO)"))) =
        normalize_string (.pstr "渋谷 (PARCO)") ∧
    ('p' ≠ ' ' ∧ 'p' ≠ '　' ∧ 'p' ≠ '（' ∧ 'p' ≠ '）' ∧ 'p' ≠ '(' ∧ 'p' ≠ ')' ∧
      Char.toLower 'p' = 'p') :=
  ⟨claim_C9_normalize_string.1 (.pstr "渋谷 (PARCO)"),
   claim_C9_normalize_string.2.2.2.1 "渋谷 (PARCO)" 'p' (by decide)⟩

theorem monthMatch_length {sep2s l mo r : List Char}
    (h : monthMatch sep2s l = some (mo, r)) : mo.length = 1 ∨ mo.length = 2 := by
  rcases l with _ | ⟨d1, _ | ⟨d2, _ | ⟨s, rest⟩⟩⟩
  · simp [monthMatch] at h
  · simp [monthMatch] at h
  · simp only [monthMatch] at h
    split at h
    · obtain ⟨h1, _⟩ := Prod.mk.injEq .. ▸ Option.some.injEq .. ▸ h
      exact Or.inl (by rw [← h1]; rfl)
    · exact absurd h (by simp)
  · simp only [monthMatch] at h
    split at h
    · obtain ⟨h1, _⟩ := Prod.mk.injEq .. ▸ Option.some.injEq .. ▸ h
      exact Or.inr (by rw [← h1]; rfl)
    · split at h
      · obtain ⟨h1, _⟩ := Prod.mk.injEq .. ▸ Option.some.injEq .. ▸ h
        exact Or.inl (by rw [← h1]; rfl)
      · exact absurd h (by simp)

theorem dayMatch_length {trail : Option Char} {l d r : List Char}
    (h : dayMatch trail l = some (d, r)) : d.length = 1 ∨ d.length = 2 := by
  rcases trail with _ | t
  · rcases l with _ | ⟨d1, _ | ⟨d2, rest⟩⟩
    · simp [dayMatch] at h
    · simp only [dayMatch] at h
      split at h
      · obtain ⟨h1, _⟩ := Prod.mk.injEq .. ▸ Option.some.injEq .. ▸ h
        exact Or.inl (by rw [← h1]; rfl)
      · exact absurd h (by simp)
    · simp only [dayMatch] at h
      split at h
      · obtain ⟨h1, _⟩ := Prod.mk.injEq .. ▸ Option.some.injEq .. ▸ h
        exact Or.inr (by rw [← h1]; rfl)
      · split at h
        · obtain ⟨h1, _⟩ := Prod.mk.injEq .. ▸ Option.some.injEq .. ▸ h
          exact Or.inl (by rw [← h1]; rfl)
        · exact absurd h (by simp)
  · rcases l with _ | ⟨d1, _ | ⟨d2, _ | ⟨u, rest⟩⟩⟩
    · simp [dayMatch] at h
    · simp [dayMatch] at h
    · simp only [dayMatch] at h
      split at h
      · obtain ⟨h1, _⟩ := Prod.mk.injEq .. ▸ Option.some.injEq .. ▸ h
        exact Or.inl (by rw [← h1]; rfl)
      · exact absurd h (by simp)
    · simp only [dayMatch] at h
      split at h
      · obtain ⟨h1, _⟩ := Prod.mk.injEq .. ▸ Option.some.injEq .. ▸ h
        exact Or.inr (by rw [← h1]; rfl)
      · split at h
        · obtain ⟨h1, _⟩ := Prod.mk.injEq .. ▸ Option.some.injEq .. ▸ h
          exact Or.inl (by rw [← h1]; rfl)
        · exact absurd h (by simp)

theorem matchDateAt_shape {sep1s sep2s : List Char} {trail : Option Char}
    {l y mo d rest : List Char}
    (h : matchDateAt sep1s sep2s trail l = some (y, mo, d, rest)) :
    y.length = 4 ∧ (mo.length = 1 ∨ mo.length = 2) ∧ (d.length = 1 ∨ d.length = 2) := by
  rcases l with _ | ⟨y1, _ | ⟨y2, _ | ⟨y3, _ | ⟨y4, _ | ⟨s1, r⟩⟩⟩⟩⟩
  · simp [matchDateAt] at h
  · simp [matchDateAt] at h
  · simp [matchDateAt] at h
  · simp [matchDateAt] at h
  · simp [matchDateAt] at h
  · rw [matchDateAt] at h
    split at h
    · split at h
      next mo' rest2 hm =>
        split at h
        next d' rest3 hd =>
          simp only [Option.some.injEq, Prod.mk.injEq] at h
          obtain ⟨hy, hmo, hdd, _⟩ := h
          refine ⟨by rw [← hy]; rfl, ?_, ?_⟩
          · rw [← hmo]; exact monthMatch_length hm
          · rw [← hdd]; exact dayMatch_length hd
        next => exact absurd h (by simp)
      next => exact absurd h (by simp)
    · exact absurd h (by simp)

theorem searchSepDate_shape {l y mo d : List Char}
    (h : searchSepDate l = some (y, mo, d)) :
    y.length = 4 ∧ (mo.length = 1 ∨ mo.length = 2) ∧ (d.length = 1 ∨ d.length = 2) := by
  induction l with
  | nil => simp [searchSepDate] at h
  | cons c t ih =>
      rw [searchSepDate] at h
      split at h
      next y' mo' d' r' hm =>
        simp only [Option.some.injEq, Prod.mk.injEq] at h
        obtain ⟨hy, hmo, hdd⟩ := h
        have hs := matchDateAt_shape hm
        exact ⟨by rw [← hy]; exact hs.1, by rw [← hmo]; exact hs.2.1,
               by rw [← hdd]; exact hs.2.2⟩
      next => exact ih h

theorem zfill2_length {l : List Char} (h : l.length = 1 ∨ l.length = 2) :
    (zfill2 l).length = 2 := by
  unfold zfill2
  rcases h with h | h <;> simp [h]

theorem chunkLoop_succ (text : List Char) (chunk_size overlap start fuel : Nat) :
    chunkLoop text chunk_size overlap start (fuel + 1) =
      if start < text.length then
        ((text.drop start).take (min (start + chunk_size) text.length - start)) ::
          chunkLoop text chunk_size overlap
            (max (min (start + chunk_size) text.length - overlap)
              (min (start + chunk_size) text.length)) fuel
      else [] := rfl

theorem chunkLoop_spec (text : List Char) (chunk_size overlap : Nat)
    (hcs : 1 ≤ chunk_size) :
    ∀ fuel start, text.length - start ≤ fuel →
      (chunkLoop text chunk_size overlap start fuel).flatten = text.drop start ∧
      ∀ c ∈ chunkLoop text chunk_size overlap start fuel, c ≠ [] ∧ c.length ≤ chunk_size := by
  intro fuel
  induction fuel with
  | zero =>
      intro start h
      have : text.drop start = [] := List.drop_eq_nil_of_le (by omega)
      simp [chunkLoop, this]
  | succ fuel ih =>
      intro start h
      by_cases hs : start < text.length
      · have he1 : start + 1 ≤ min (start + chunk_size) text.length := by omega
        have he2 : min (start + chunk_size) text.length ≤ text.length := Nat.min_le_right _ _
        have hmax : max (min (start + chunk_size) text.length - overlap)
            (min (start + chunk_size) text.length) = min (start + chunk_size) text.length :=
          Nat.max_eq_right (Nat.sub_le _ _)
        have hrec := ih (min (start + chunk_size) text.length) (by omega)
        rw [chunkLoop_succ, if_pos hs, hmax]
        constructor
        · rw [List.flatten_cons, hrec.1]
          have : text.drop (min (start + chunk_size) text.length)
              = (text.drop start).drop (min (start + chunk_size) text.length - start) := by
            rw [List.drop_drop]
            congr 1
            omega
          rw [this, List.take_append_drop]
        · intro c hc
          rcases List.mem_cons.mp hc with h1 | h1
          · subst h1
            constructor
            · have hlen : ((text.drop start).take
                  (min (start + chunk_size) text.length - start)).length
                  = min (start + chunk_size) text.length - start := by
                rw [List.length_take, List.length_drop]
                omega
              intro hnil
              rw [hnil] at hlen
              simp at hlen
              omega
            · calc ((text.drop start).take
                    (min (start + chunk_size) text.length - start)).length
                  ≤ min (start + chunk_size) text.length - start := by
                    rw [List.length_take]; omega
                _ ≤ chunk_size := by omega
          · exact hrec.2 c h1
      · have hdrop : text.drop start = [] := List.drop_eq_nil_of_le (by omega)
        rw [chunkLoop_succ, if_neg hs]
        exact ⟨by rw [hdrop]; rfl, fun c hc => by simp at hc⟩

/-- C10: for every text, positive chunk size and any overlap argument,
the chunks produced by `split_text_into_chunks` are non-empty, at most
`chunk_size` long, and are consecutive disjoint slices whose
concatenation in yield order is exactly the input text. -/
theorem claim_C10_chunks_partition (text : List Char) (chunk_size overlap : Nat)
    (hcs : 1 ≤ chunk_size) :
    (split_text_into_chunks text chunk_size overlap).flatten = text ∧
    ∀ c ∈ split_text_into_chunks text chunk_size overlap,
      c ≠ [] ∧ c.length ≤ chunk_size := by
  have h := chunkLoop_spec text chunk_size overlap hcs text.length 0 (by omega)
  exact ⟨by simpa using h.1, h.2⟩

/-- Witness for C10 at a concrete input. -/
theorem claim_C10_chunks_partition_witness :
    (split_text_into_chunks "hello world".data 4 1).flatten = "hello world".data ∧
    ∀ c ∈ split_text_into_chunks "hello world".data 4 1, c ≠ [] ∧ c.length ≤ 4 :=
  claim_C10_chunks_partition "hello world".data 4 1 (by decide)

/-- C1 (code bug): over a 25-character string with `size = 10` and
`overlap = 3` the code yields the disjoint slices 0–9, 10–19, 20–24:
the `overlap` parameter is dead (`max(end - overlap, end)` is always
`end`), so consecutive chunks share no characters; the last three
characters of the first chunk differ from the first three of the
second. -/
theorem claim_C1_chunk_overlap_dead :
    split_text_into_chunks "abcdefghijklmnopqrstuvwxy".data 10 3 =
      ["abcdefghij".data, "klmnopqrst".data, "uvwxy".data] ∧
    "abcdefghij".data.drop 7 ≠ "klmnopqrst".data.take 3 := by
  constructor
  · rfl
  · decide

-- ------------------------------------------------------------------
-- C5: safe_json_parse
-- ------------------------------------------------------------------

theorem mem_removeSubAux {pat : List Char} :
    ∀ {fuel : Nat} {l : List Char} {x : Char}, x ∈ removeSubAux pat fuel l → x ∈ l := by
  intro fuel
  induction fuel with
  | zero => intro l x h; exact h
  | succ fuel ih =>
      intro l x h
      cases l with
      | nil => exact h
      | cons c t =>
          rw [removeSubAux] at h
          split_ifs at h with hp
          · exact List.mem_of_mem_drop (ih h)
          · rcases List.mem_cons.mp h with h1 | h1
            · exact h1 ▸ List.mem_cons_self c t
            · exact List.mem_cons_of_mem c (ih h1)

theorem mem_removeSub {pat l : List Char} {x : Char} (h : x ∈ removeSub pat l) :
    x ∈ l := mem_removeSubAux h

theorem strFind_eq_none {c : Char} {l : List Char} (h : c ∉ l) :
    strFind c l = none := by
  unfold strFind
  rw [List.findIdx?_eq_none_iff]
  intro x hx
  simp only [decide_eq_false_iff_not]
  intro he
  exact h (he ▸ hx)

/-- C5 (counterexample): `safe_json_parse` performs no direct parse of
the whole trimmed string.  On an input that is one JSON object
containing an array, the whole-string parse succeeds (yielding the
object), yet the function returns the inner array extracted from the
bracket substring; a parser following the claim's staged order returns
the wrapped object instead. -/
theorem claim_C5_no_direct_parse :
    safe_json_parse (.pstr "\x7b\"a\": [1]\x7d") = [Json.num 1] ∧
    json_loads "\x7b\"a\": [1]\x7d" = some (Json.obj [("a", Json.arr [Json.num 1])]) ∧
    spec_safe_json_parse "\x7b\"a\": [1]\x7d"
      = [Json.obj [("a", Json.arr [Json.num 1])]] ∧
    ([Json.obj [("a", Json.arr [Json.num 1])]] : List Json) ≠ [Json.num 1] := by
  refine ⟨rfl, rfl, rfl, ?_⟩
  intro h
  exact Json.noConfusion (List.cons.inj h).1

/-- C5 (amended): `safe_json_parse` always returns a list (never
raises, by type); markdown fences are stripped; it attempts the
substring between the first `[` and last `]` as a JSON array, then the
substring between the first brace and last brace as a wrapped object —
with no direct whole-string parse stage; a well-formed serialized array
round-trips, fenced arrays are recovered, and input containing no
bracket and no brace yields the empty list. -/
theorem claim_C5_safe_json_parse :
    (∀ s : String, '[' ∉ s.data → lbrace ∉ s.data → safe_json_parse (.pstr s) = []) ∧
    safe_json_parse (.pstr (json_dumps (Json.arr [Json.obj [("name", Json.str "x")]])))
      = [Json.obj [("name", Json.str "x")]] ∧
    safe_json_parse (.pstr "```json\n[\x7b\"name\": \"x\"\x7d]\n```")
      = [Json.obj [("name", Json.str "x")]] ∧
    safe_json_parse .pnone = [] ∧
    (∀ n : Int, safe_json_parse (.pint n) = []) := by
  refine ⟨?_, rfl, rfl, rfl, fun _ => rfl⟩
  intro s h1 h2
  show (if s = "" then []
    else safe_json_parse_core (pyStrip
      (removeSub "```".data (removeSub "```json".data s.data)))) = []
  split_ifs with hs
  · rfl
  · have hnb : '[' ∉ pyStrip (removeSub "```".data (removeSub "```json".data s.data)) :=
      fun hmem => h1 (mem_removeSub (mem_removeSub (mem_pyStrip hmem)))
    have hnc : lbrace ∉ pyStrip (removeSub "```".data (removeSub "```json".data s.data)) :=
      fun hmem => h2 (mem_removeSub (mem_removeSub (mem_pyStrip hmem)))
    unfold safe_json_parse_core
    rw [strFind_eq_none hnb]
    unfold safe_json_parse_braces
    rw [strFind_eq_none hnc]

/-- Witness for C5 at a concrete bracket-free input. -/
theorem claim_C5_safe_json_parse_witness :
    safe_json_parse (.pstr "hello world") = [] :=
  claim_C5_safe_json_parse.1 "hello world" (by decide) (by decide)

/-- C7 (counterexample): surrounding free text is NOT preserved in
place: on "2025/8/8 test" `normalize_date` returns only the reformatted
date, dropping " test". -/
theorem claim_C7_surrounding_text_dropped :
    normalize_date (.pstr "2025/8/8 test") = "2025/08/08" ∧
    ("2025/08/08" : String) ≠ "2025/08/08 test" :=
  ⟨rfl, by decide⟩

/-- C7 (amended): `normalize_date` zero-pads the three date shapes and
returns the empty string for falsy or non-string input; the four
concrete assertions of the claim hold, and the Japanese `YYYY年M月D日`
shape is rewritten in place preserving surrounding text; but when the
input contains a `YYYY-M-D` / `YYYY/M/D` match, the function returns
only that first match reformatted — at most 11 characters — discarding
any surrounding text. -/
theorem claim_C7_normalize_date :
    normalize_date (.pstr "2025年8月8日") = "2025年08月08日" ∧
    normalize_date (.pstr "2025/8/8") = "2025/08/08" ∧
    normalize_date (.pstr "") = "" ∧
    normalize_date .pnone = "" ∧
    normalize_date (.pstr "開催は2025年8月8日から2025年9月1日まで")
      = "開催は2025年08月08日から2025年09月01日まで" ∧
    (∀ s : String, ∀ y mo d : List Char,
      searchSepDate (pyStrip s.data) = some (y, mo, d) →
        (normalize_date (.pstr s)).length ≤ 11) := by
  refine ⟨rfl, rfl, rfl, rfl, rfl, ?_⟩
  intro s y mo d h
  by_cases hs : s = ""
  · subst hs
    simp [pyStrip, searchSepDate] at h
  · have hshape := searchSepDate_shape h
    have hmo := zfill2_length hshape.2.1
    have hd := zfill2_length hshape.2.2
    simp only [normalize_date, if_neg hs, h]
    split
    · show (fmtSlash y mo d).length ≤ 11
      simp [fmtSlash, hshape.1, hmo, hd]
    · show (fmtYmd y mo d).length ≤ 11
      simp [fmtYmd, hshape.1, hmo, hd]

/-- Witness for C7 at a concrete input with a slash-date match. -/
theorem claim_C7_normalize_date_witness :
    (normalize_date (.pstr "2025/8/8 test")).length ≤ 11 :=
  claim_C7_normalize_date.2.2.2.2.2 "2025/8/8 test" "2025".data "8".data "8".data rfl

-- ------------------------------------------------------------------
-- C2: JSON-LD merge
-- ------------------------------------------------------------------

/-- C2 (counterexample): when both the LLM-extracted address and the
JSON-LD address are non-empty, the merged record keeps the LLM value —
the structured-data value does NOT take precedence. -/
theorem claim_C2_llm_value_kept :
    (merge_item_with_jsonld "" ⟨"東京都渋谷区B", "35.0", "139.0"⟩
        ⟨"イベント", "渋谷", "東京都渋谷区A", "35.6", "139.7", "", "", ""⟩).address
      = "東京都渋谷区A" ∧
    ("東京都渋谷区A" : String) ≠ "東京都渋谷区B" := by
  constructor
  · rfl
  · decide

/-- C2 (amended): for each of address/latitude/longitude, the JSON-LD
value fills the field only when the LLM value is empty; whenever the
LLM value is non-empty it is kept, and an empty JSON-LD value never
overwrites anything.  Name and place are untouched by the merge. -/
theorem claim_C2_merge_fills_only_empty (release_date : String) (loc : JsonLdLoc)
    (item : Item) :
    (item.address = "" → loc.address ≠ "" →
      (merge_item_with_jsonld release_date loc item).address = loc.address) ∧
    (item.address ≠ "" →
      (merge_item_with_jsonld release_date loc item).address = item.address) ∧
    (loc.address = "" →
      (merge_item_with_jsonld release_date loc item).address = item.address) ∧
    (item.latitude = "" → loc.latitude ≠ "" →
      (merge_item_with_jsonld release_date loc item).latitude = loc.latitude) ∧
    (item.latitude ≠ "" →
      (merge_item_with_jsonld release_date loc item).latitude = item.latitude) ∧
    (loc.latitude = "" →
      (merge_item_with_jsonld release_date loc item).latitude = item.latitude) ∧
    (item.longitude = "" → loc.longitude ≠ "" →
      (merge_item_with_jsonld release_date loc item).longitude = loc.longitude) ∧
    (item.longitude ≠ "" →
      (merge_item_with_jsonld release_date loc item).longitude = item.longitude) ∧
    (loc.longitude = "" →
      (merge_item_with_jsonld release_date loc item).longitude = item.longitude) ∧
    (merge_item_with_jsonld release_date loc item).name = item.name ∧
    (merge_item_with_jsonld release_date loc item).place = item.place := by
  unfold merge_item_with_jsonld
  refine ⟨?_, ?_, ?_, ?_, ?_, ?_, ?_, ?_, ?_, rfl, rfl⟩ <;>
    · intros
      dsimp only
      split_ifs <;> tauto

/-- Witness for C2 at concrete records. -/
theorem claim_C2_merge_fills_only_empty_witness :
    (merge_item_with_jsonld "2025/01/01" ⟨"addr", "35", "139"⟩
        ⟨"n", "p", "", "", "", "", "", ""⟩).address = "addr" ∧
    (merge_item_with_jsonld "2025/01/01" ⟨"", "", ""⟩
        ⟨"n", "p", "a", "b", "c", "", "", ""⟩).address = "a" :=
  ⟨(claim_C2_merge_fills_only_empty "2025/01/01" ⟨"addr", "35", "139"⟩
      ⟨"n", "p", "", "", "", "", "", ""⟩).1 rfl (by decide),
   (claim_C2_merge_fills_only_empty "2025/01/01" ⟨"", "", ""⟩
      ⟨"n", "p", "a", "b", "c", "", "", ""⟩).2.1 (by decide)⟩

-- ------------------------------------------------------------------
-- C3/C4: deduplication
-- ------------------------------------------------------------------

theorem dedupStep_inv (existing : List (String × String)) (st : DedupState)
    (item : Item)
    (h : (∀ it ∈ st.accepted, normalize_string_str it.name ≠ "" ∧
            fingerprint it ∉ existing ∧ fingerprint it ∈ st.run_fingerprints) ∧
         (st.accepted.map fingerprint).Pairwise (· ≠ ·)) :
    (∀ it ∈ (dedupStep existing st item).accepted, normalize_string_str it.name ≠ "" ∧
        fingerprint it ∉ existing ∧
        fingerprint it ∈ (dedupStep existing st item).run_fingerprints) ∧
    ((dedupStep existing st item).accepted.map fingerprint).Pairwise (· ≠ ·) := by
  unfold dedupStep
  split_ifs with h1 h2 h3
  · exact h
  · exact h
  · exact h
  · dsimp only
    constructor
    · intro it hit
      rcases List.mem_append.mp hit with hold | hnew
      · obtain ⟨ha, hb, hc⟩ := h.1 it hold
        exact ⟨ha, hb, List.mem_cons_of_mem _ hc⟩
      · rw [List.mem_singleton] at hnew
        subst hnew
        exact ⟨h1, h2, List.mem_cons_self _ _⟩
    · rw [List.map_append, List.pairwise_append]
      refine ⟨h.2, by simp, ?_⟩
      intro a ha b hb
      rw [List.map_singleton, List.mem_singleton] at hb
      subst hb
      rw [List.mem_map] at ha
      obtain ⟨it, hit, hfp⟩ := ha
      intro hab
      apply h3
      rw [← hab, ← hfp]
      exact (h.1 it hit).2.2

theorem dedup_fold_inv (existing : List (String × String)) :
    ∀ (items : List Item) (st : DedupState),
      ((∀ it ∈ st.accepted, normalize_string_str it.name ≠ "" ∧
          fingerprint it ∉ existing ∧ fingerprint it ∈ st.run_fingerprints) ∧
        (st.accepted.map fingerprint).Pairwise (· ≠ ·)) →
      ((∀ it ∈ (items.foldl (dedupStep existing) st).accepted,
          normalize_string_str it.name ≠ "" ∧ fingerprint it ∉ existing ∧
          fingerprint it ∈ (items.foldl (dedupStep existing) st).run_fingerprints) ∧
        ((items.foldl (dedupStep existing) st).accepted.map fingerprint).Pairwise
          (· ≠ ·)) := by
  intro items
  induction items with
  | nil => intro st h; exact h
  | cons item rest ih =>
      intro st h
      exact ih (dedupStep existing st item) (dedupStep_inv existing st item h)

theorem dedup_fold_filter (existing : List (String × String)) (f : String × String)
    (hf1 : f.1 ≠ "") (hf2 : f ∉ existing) :
    ∀ (items : List Item) (st : DedupState),
      ((items.foldl (dedupStep existing) st).accepted).filter
          (fun it => fingerprint it = f)
        = st.accepted.filter (fun it => fingerprint it = f)
          ++ (if f ∈ st.run_fingerprints then []
              else (items.filter (fun it => fingerprint it = f)).take 1) := by
  intro items
  induction items with
  | nil =>
      intro st
      split_ifs <;> simp
  | cons item rest ih =>
      intro st
      rw [List.foldl_cons]
      by_cases hfp : fingerprint item = f
      · have hn1 : ¬(fingerprint item).1 = "" := by rw [hfp]; exact hf1
        have hex : fingerprint item ∉ existing := by rw [hfp]; exact hf2
        by_cases hrun : f ∈ st.run_fingerprints
        · have hstep : dedupStep existing st item
              = { st with skipped_duplicate_run := st.skipped_duplicate_run + 1 } := by
            unfold dedupStep
            rw [if_neg hn1, if_neg hex, if_pos (by rw [hfp]; exact hrun)]
          rw [hstep, ih]
          dsimp only
          rw [if_pos hrun, if_pos hrun]
        · have hstep : dedupStep existing st item
              = { st with run_fingerprints := fingerprint item :: st.run_fingerprints,
                          accepted := st.accepted ++ [item] } := by
            unfold dedupStep
            rw [if_neg hn1, if_neg hex, if_neg (by rw [hfp]; exact hrun)]
          rw [hstep, ih]
          dsimp only
          rw [if_neg hrun]
          rw [if_pos (by rw [hfp]; exact List.mem_cons_self f _)]
          rw [List.filter_append, List.append_nil]
          have hone : List.filter (fun it => decide (fingerprint it = f)) [item]
              = [item] := by
            simp [hfp]
          have htake : (List.filter (fun it => decide (fingerprint it = f))
              (item :: rest)).take 1 = [item] := by
            rw [List.filter_cons_of_pos (by simp [hfp])]
            rfl
          rw [hone, htake]
      · have hfilter : List.filter (fun it => decide (fingerprint it = f))
            (item :: rest) = List.filter (fun it => decide (fingerprint it = f)) rest := by
          rw [List.filter_cons_of_neg (by simp [hfp])]
        by_cases h1 : (fingerprint item).1 = ""
        · have hstep : dedupStep existing st item = st := by
            unfold dedupStep
            rw [if_pos h1]
          rw [hstep, ih, hfilter]
        · by_cases h2 : fingerprint item ∈ existing
          · have hstep : dedupStep existing st item
                = { st with skipped_duplicate_csv := st.skipped_duplicate_csv + 1 } := by
              unfold dedupStep
              rw [if_neg h1, if_pos h2]
            rw [hstep, ih]
            dsimp only
            rw [hfilter]
          · by_cases h3 : fingerprint item ∈ st.run_fingerprints
            · have hstep : dedupStep existing st item
                  = { st with
                      skipped_duplicate_run := st.skipped_duplicate_run + 1 } := by
                unfold dedupStep
                rw [if_neg h1, if_neg h2, if_pos h3]
              rw [hstep, ih]
              dsimp only
              rw [hfilter]
            · have hstep : dedupStep existing st item
                  = { st with
                      run_fingerprints := fingerprint item :: st.run_fingerprints,
                      accepted := st.accepted ++ [item] } := by
                unfold dedupStep
                rw [if_neg h1, if_neg h2, if_neg h3]
              rw [hstep, ih]
              dsimp only
              rw [List.filter_append]
              have hzero : List.filter (fun it => decide (fingerprint it = f)) [item]
                  = [] := by
                simp [hfp]
              rw [hzero, List.append_nil, hfilter]
              have hmem : (f ∈ fingerprint item :: st.run_fingerprints)
                  ↔ f ∈ st.run_fingerprints := by
                rw [List.mem_cons]
                constructor
                · rintro (hq | hq)
                  · exact absurd hq.symm hfp
                  · exact hq
                · exact fun hq => Or.inr hq
              by_cases hrun : f ∈ st.run_fingerprints
              · rw [if_pos hrun, if_pos (hmem.mpr hrun)]
              · rw [if_neg hrun, if_neg (fun hq => hrun (hmem.mp hq))]

/-- C4: in the dedup pass, a record with empty normalized name is never
accepted; a record whose fingerprint is in `existing_fingerprints` is
never accepted; accepted fingerprints are pairwise distinct; and for
every admissible fingerprint the accepted representative is exactly the
first record in the stream carrying it (so among equal-fingerprint
records only the first is accepted). -/
theorem claim_C4_dedup_invariants (existing : List (String × String))
    (items : List Item) :
    (∀ it ∈ (process_items existing items).accepted,
        normalize_string_str it.name ≠ "") ∧
    (∀ it ∈ (process_items existing items).accepted, fingerprint it ∉ existing) ∧
    (((process_items existing items).accepted.map fingerprint).Pairwise (· ≠ ·)) ∧
    (∀ f : String × String, f.1 ≠ "" → f ∉ existing →
      (process_items existing items).accepted.filter (fun it => fingerprint it = f)
        = (items.filter (fun it => fingerprint it = f)).take 1) := by
  have hinv := dedup_fold_inv existing items initDedupState
    (by exact ⟨fun it hit => absurd hit (List.not_mem_nil it), List.Pairwise.nil⟩)
  refine ⟨fun it hit => (hinv.1 it hit).1, fun it hit => (hinv.1 it hit).2.1,
    hinv.2, ?_⟩
  intro f hf1 hf2
  have hrun0 : f ∉ initDedupState.run_fingerprints := by
    simp [initDedupState]
  have hthis := dedup_fold_filter existing f hf1 hf2 items initDedupState
  rw [if_neg hrun0] at hthis
  exact hthis.trans (List.nil_append _)

/-- Witness for C4 on a concrete run: two same-fingerprint records (one
with a full-width space variant), only the first kept. -/
theorem claim_C4_dedup_invariants_witness :
    (process_items [("knownfest", "")]
        [⟨"FestA", "Shibuya", "", "", "", "", "", ""⟩,
         ⟨"festa", "SHIBUYA　", "", "", "", "", "", ""⟩]).accepted.filter
        (fun it => fingerprint it = ("festa", "shibuya"))
      = (List.filter (fun it => fingerprint it = ("festa", "shibuya"))
          [⟨"FestA", "Shibuya", "", "", "", "", "", ""⟩,
           ⟨"festa", "SHIBUYA　", "", "", "", "", "", ""⟩]).take 1 :=
  (claim_C4_dedup_invariants [("knownfest", "")] _).2.2.2
    ("festa", "shibuya") (by decide) (by decide)

/-- C3 (counterexample): a record whose place normalizes to empty is NOT
treated as a duplicate of an existing fingerprint that shares only the
name component: with existing fingerprint ("akimatsuri", "shibuya"),
the record (name "Akimatsuri", place "") is accepted. -/
theorem claim_C3_no_name_only_fallback :
    (process_items [("akimatsuri", "shibuya")]
        [⟨"Akimatsuri", "", "", "", "", "", "", ""⟩]).accepted
      = [⟨"Akimatsuri", "", "", "", "", "", "", ""⟩] := by
  decide

/-- C3 (amended): a candidate whose place normalizes to empty is
deduplicated only against fingerprints whose place component is itself
empty: it is rejected exactly when `(normalized name, "")` is in the
existing set, and a name-only match with a non-empty stored place does
not cause rejection. -/
theorem claim_C3_place_empty_exact_match (existing : List (String × String))
    (item : Item) (hp : normalize_string_str item.place = "")
    (hn : normalize_string_str item.name ≠ "") :
    (process_items existing [item]).accepted
      = if (normalize_string_str item.name, "") ∈ existing then [] else [item] := by
  have hfp : fingerprint item = (normalize_string_str item.name, "") := by
    unfold fingerprint
    rw [hp]
  show (dedupStep existing initDedupState item).accepted = _
  unfold dedupStep
  rw [hfp]
  rw [if_neg (by exact hn)]
  by_cases hex : (normalize_string_str item.name, "") ∈ existing
  · rw [if_pos hex, if_pos hex]
    rfl
  · rw [if_neg hex, if_neg hex,
      if_neg (show (normalize_string_str item.name, "")
        ∉ initDedupState.run_fingerprints from by simp [initDedupState])]
    rfl

/-- Witness for C3 (amended) at the concrete inputs of the
counterexample. -/
theorem claim_C3_place_empty_exact_match_witness :
    (process_items [("akimatsuri", "shibuya")]
        [⟨"Akimatsuri", "", "", "", "", "", "", ""⟩]).accepted
      = if (normalize_string_str "Akimatsuri", "") ∈ [("akimatsuri", "shibuya")]
        then [] else [(⟨"Akimatsuri", "", "", "", "", "", "", ""⟩ : Item)] :=
  claim_C3_place_empty_exact_match [("akimatsuri", "shibuya")]
    ⟨"Akimatsuri", "", "", "", "", "", "", ""⟩ (by decide) (by decide)

-- ------------------------------------------------------------------
-- C8: find_next_page_url
-- ------------------------------------------------------------------

theorem fnpu_link_next_same {doc : ListingDoc} {cur u : String}
    (h : fnpu_link_next doc cur = some u) : same_domain u cur = true := by
  unfold fnpu_link_next at h
  split at h
  next href =>
    split_ifs at h with h1 h2
    · rw [Option.some.injEq] at h
      subst h
      exact h2
  next => exact absurd h (by simp)

theorem fnpu_rel_anchor_same {doc : ListingDoc} {cur u : String}
    (h : fnpu_rel_anchor doc cur = some u) : same_domain u cur = true := by
  unfold fnpu_rel_anchor at h
  split at h
  next a hfind =>
    split at h
    next href =>
      split_ifs at h with h1 h2
      · rw [Option.some.injEq] at h
        subst h
        exact h2
    next => exact absurd h (by simp)
  next => exact absurd h (by simp)

theorem fnpu_token_anchor_same {doc : ListingDoc} {cur u : String}
    {tokens : List String}
    (h : fnpu_token_anchor doc cur tokens = some u) : same_domain u cur = true := by
  unfold fnpu_token_anchor at h
  obtain ⟨a, _, hfa⟩ := List.exists_of_findSome?_eq_some h
  split at hfa
  · exact absurd hfa (by simp)
  · split_ifs at hfa with h1 h2 h3
    · rw [Option.some.injEq] at hfa
      subst hfa
      exact h3

theorem find_next_page_url_same_domain {doc : ListingDoc} {cur : String}
    {rule : Option SiteRule} {u : String}
    (h : find_next_page_url doc cur rule = some u) : same_domain u cur = true := by
  unfold find_next_page_url at h
  split at h
  next u' h1 =>
    rw [Option.some.injEq] at h
    subst h
    exact fnpu_link_next_same h1
  next h1 =>
    split at h
    next u' h2 =>
      rw [Option.some.injEq] at h
      subst h
      exact fnpu_rel_anchor_same h2
    next => exact fnpu_token_anchor_same h

/-- C8 (counterexample): an anchor whose CLASS attribute contains a
next-page hint token (but whose visible text does not) is never found —
the class attribute is not consulted, contrary to the claim. -/
theorem claim_C8_class_attribute_ignored :
    find_next_page_url ⟨none, [⟨none, some "/page2", "→", "次へ"⟩]⟩
        "https://example.com/list" none = none ∧
    ("次へ" ∈ default_next_hint_tokens) ∧
    containsSub "次へ".data "次へ".data = true ∧
    is_valid_href "/page2" = true ∧
    same_domain (urljoin "https://example.com/list" "/page2")
      "https://example.com/list" = true := by
  refine ⟨rfl, by decide, by decide, by decide, by decide⟩

/-- C8 (amended): every URL returned by `find_next_page_url` has the
same network location as the current page; candidates are sought in
priority order starting from `<link rel="next">`; and in the third
stage only the anchor's visible text is matched against the hint
tokens — when no text matches (and the first two stages yield nothing)
the result is `none` regardless of class attributes. -/
theorem claim_C8_find_next_page_url (doc : ListingDoc) (cur : String)
    (rule : Option SiteRule) :
    (∀ u, find_next_page_url doc cur rule = some u → same_domain u cur = true) ∧
    (∀ href, doc.link_next = some (some href) → href ≠ "" →
      is_valid_href href = true → same_domain (urljoin cur href) cur = true →
      find_next_page_url doc cur rule = some (urljoin cur href)) ∧
    (doc.link_next = none →
      (∀ a ∈ doc.anchors, relHasNext a.rel = false) →
      (∀ a ∈ doc.anchors, ∀ tok ∈ next_hint_tokens rule,
        containsSub tok.data a.text.data = false) →
      find_next_page_url doc cur rule = none) := by
  refine ⟨fun u h => find_next_page_url_same_domain h, ?_, ?_⟩
  · intro href h1 h2 h3 h4
    have hstage1 : fnpu_link_next doc cur = some (urljoin cur href) := by
      unfold fnpu_link_next
      rw [h1]
      simp [h2, h3, h4]
    unfold find_next_page_url
    rw [hstage1]
  · intro hln hrel htok
    have hstage1 : fnpu_link_next doc cur = none := by
      unfold fnpu_link_next
      rw [hln]
    have hstage2 : fnpu_rel_anchor doc cur = none := by
      unfold fnpu_rel_anchor
      rw [List.find?_eq_none.mpr (fun a ha => by
        simp [hrel a ha])]
    have hstage3 : fnpu_token_anchor doc cur (next_hint_tokens rule) = none := by
      unfold fnpu_token_anchor
      rw [List.findSome?_eq_none_iff]
      intro a ha
      have hany : ((next_hint_tokens rule).any
          (fun tok => containsSub tok.data a.text.data)) = false := by
        rw [List.any_eq_false]
        intro tok htok2
        simp [htok a ha tok htok2]
      rcases hh : a.href with _ | href
      · simp [hh]
      · simp [hh, hany]
    unfold find_next_page_url
    rw [hstage1, hstage2, hstage3]

/-- Witness for C8 at a concrete listing document. -/
theorem claim_C8_find_next_page_url_witness :
    find_next_page_url
        ⟨some (some "/list?page=2"), [⟨none, some "/other", "記事", ""⟩]⟩
        "https://example.com/list" none
      = some (urljoin "https://example.com/list" "/list?page=2") :=
  (claim_C8_find_next_page_url
      ⟨some (some "/list?page=2"), [⟨none, some "/other", "記事", ""⟩]⟩
      "https://example.com/list" none).2.1 "/list?page=2" rfl (by decide)
    (by decide) (by decide)

-- ------------------------------------------------------------------
-- C6: retry/backoff and run continuation
-- ------------------------------------------------------------------

theorem extract_fold_mono (oracle : Nat → Nat → LLMOutcome) (min_chunk_len : Nat) :
    ∀ (l : List (Nat × List Char)) (acc : ExtractResult),
      acc.all_items.Sublist
        ((l.foldl (extract_step oracle min_chunk_len) acc).all_items) := by
  intro l
  induction l with
  | nil => intro acc; exact List.Sublist.refl _
  | cons q t ih =>
      intro acc
      rw [List.foldl_cons]
      refine List.Sublist.trans ?_ (ih (extract_step oracle min_chunk_len acc q))
      unfold extract_step
      split_ifs
      · exact List.Sublist.refl _
      · exact List.sublist_append_left _ _

theorem extract_fold_mem (oracle : Nat → Nat → LLMOutcome) (min_chunk_len : Nat) :
    ∀ (l : List (Nat × List Char)) (acc : ExtractResult) (p : Nat × List Char),
      p ∈ l → ¬(p.2.isEmpty || p.2.length < min_chunk_len) = true →
      (retry_llm_call (oracle p.1) 3).items.Sublist
        ((l.foldl (extract_step oracle min_chunk_len) acc).all_items) := by
  intro l
  induction l with
  | nil => intro acc p hp; exact absurd hp (List.not_mem_nil p)
  | cons q t ih =>
      intro acc p hp hskip
      rw [List.foldl_cons]
      rcases List.mem_cons.mp hp with h | h
      · subst h
        refine List.Sublist.trans ?_
          (extract_fold_mono oracle min_chunk_len t (extract_step oracle min_chunk_len acc p))
        unfold extract_step
        rw [if_neg (by exact fun hq => hskip hq)]
        exact List.sublist_append_right _ _
      · exact ih (extract_step oracle min_chunk_len acc q) p h hskip

/-- C6: a rate-limited call is retried up to 3 times with waits of
10s, 20s, 30s between attempts and its eventual success contributes its
items with no error counted; four straight rate-limits count one error
and yield no records; any other exception immediately counts one error
and yields no records for the chunk; and every usable chunk's retry
result reaches the run output regardless of what other chunks'
calls do — processing continues. -/
theorem claim_C6_retry_backoff :
    (∀ (co : Nat → LLMOutcome) (raw : String) (k : Nat), k ≤ 3 →
      (∀ i, i < k → co i = .rateLimitErr) → co k = .ok raw →
      retry_llm_call co 3
        = ⟨items_from_response raw, 0, (List.range k).map (fun i => 10 * (i + 1))⟩) ∧
    (∀ co : Nat → LLMOutcome, (∀ i, i ≤ 3 → co i = .rateLimitErr) →
      retry_llm_call co 3 = ⟨[], 1, [10, 20, 30]⟩) ∧
    (∀ (co : Nat → LLMOutcome) (k : Nat), k ≤ 3 →
      (∀ i, i < k → co i = .rateLimitErr) → co k = .otherErr →
      retry_llm_call co 3 = ⟨[], 1, (List.range k).map (fun i => 10 * (i + 1))⟩) ∧
    (∀ (oracle : Nat → Nat → LLMOutcome) (text : List Char) (p : Nat × List Char),
      p ∈ (split_text_into_chunks text 8000 400).enum →
      ¬(p.2.isEmpty || p.2.length < 120) = true →
      (retry_llm_call (oracle p.1) 3).items.Sublist
        (ai_extract_events_from_text oracle text 120).all_items) := by
  refine ⟨?_, ?_, ?_, ?_⟩
  · intro co raw k hk h1 h2
    interval_cases k
    · simp [retry_llm_call, retry_llm_call_go, h2]
    · simp [retry_llm_call, retry_llm_call_go, h1 0 (by omega), h2, List.range_succ]
    · simp [retry_llm_call, retry_llm_call_go, h1 0 (by omega), h1 1 (by omega), h2,
        List.range_succ]
    · simp [retry_llm_call, retry_llm_call_go, h1 0 (by omega), h1 1 (by omega),
        h1 2 (by omega), h2, List.range_succ]
  · intro co h
    simp [retry_llm_call, retry_llm_call_go, h 0 (by omega), h 1 (by omega),
      h 2 (by omega), h 3 (by omega)]
  · intro co k hk h1 h2
    interval_cases k
    · simp [retry_llm_call, retry_llm_call_go, h2]
    · simp [retry_llm_call, retry_llm_call_go, h1 0 (by omega), h2, List.range_succ]
    · simp [retry_llm_call, retry_llm_call_go, h1 0 (by omega), h1 1 (by omega), h2,
        List.range_succ]
    · simp [retry_llm_call, retry_llm_call_go, h1 0 (by omega), h1 1 (by omega),
        h1 2 (by omega), h2, List.range_succ]
  · intro oracle text p hp hskip
    exact extract_fold_mem oracle 120 _ ⟨[], 0⟩ p hp hskip

/-- Witness for C6: one rate-limit, then success on the second attempt
with an empty response — one 10-second wait, no error counted. -/
theorem claim_C6_retry_backoff_witness :
    retry_llm_call
        (fun i => if i = 0 then LLMOutcome.rateLimitErr else LLMOutcome.ok "[]") 3
      = ⟨[], 0, [10]⟩ :=
  claim_C6_retry_backoff.1
    (fun i => if i = 0 then LLMOutcome.rateLimitErr else LLMOutcome.ok "[]") "[]" 1
    (by omega)
    (fun i hi => by interval_cases i; rfl)
    rfl

end TrendApp
